import Mathlib

/-!
A shallow embedding of the core of `wordulator.py` (a five-letter-word
guessing solver) together with proofs about it.

Words are modelled as lists of characters; Python's `word[pos]` is modelled
with `List.getD` (identical behaviour for in-range indices, which is the
only case exercised by the source on equal-length words).  Python's
`letter in word` is list membership.  The per-guess feedback enum
`Classification` and the execution-mode enum `Mode` mirror the source
enums.  Scores (`statistics.mean` of bucket sizes) are modelled as exact
rationals.  Exceptions raised by the game loop are modelled with `Except`.
-/

abbrev Word := List Char

inductive Classification where
  | BLANK
  | YELLOW
  | GREEN
deriving DecidableEq, Repr

inductive Mode where
  | NO_POOL
  | POOL
  | CHUNKED_POOL
deriving DecidableEq, Repr

def MAX_WORKERS : Nat := 8

/-- Embedding of the body of `classify_guess`: walk the guess letters with a
running position, emitting one label per guess letter. -/
def classifyAux (answer : Word) : Nat → Word → List Classification
  | _, [] => []
  | pos, letter :: rest =>
    (if answer.getD pos ' ' = letter then Classification.GREEN
     else if letter ∈ answer then Classification.YELLOW
     else Classification.BLANK) :: classifyAux answer (pos + 1) rest

/-- `classify_guess(guess, potential_answer)` from the source. -/
def classify_guess (guess answer : Word) : List Classification :=
  classifyAux answer 0 guess

/-- Embedding of the inner `for ... else` loop of `filter_words`: `true`
means the word survives every per-position check (no `break`). -/
def keepsWord (word : Word) : Nat → List (Classification × Char) → Bool
  | _, [] => true
  | pos, (letterClass, letter) :: rest =>
    match letterClass with
    | Classification.BLANK =>
        if letter ∈ word then false else keepsWord word (pos + 1) rest
    | Classification.GREEN =>
        if word.getD pos ' ' ≠ letter then false else keepsWord word (pos + 1) rest
    | Classification.YELLOW =>
        if word.getD pos ' ' = letter ∨ letter ∉ word then false
        else keepsWord word (pos + 1) rest

/-- `filter_words(words, guess, classification)` from the source. -/
def filter_words (words : List Word) (guess : Word)
    (classification : List Classification) : List Word :=
  words.filter (fun word => keepsWord word 0 (classification.zip guess))

/-- One `counts[key] += 1` update of the `defaultdict(int)` used by
`score_guess`, modelled on an insertion-ordered association list. -/
def bump : List (List Classification × Nat) → List Classification →
    List (List Classification × Nat)
  | [], k => [(k, 1)]
  | (k', c) :: rest, k =>
    if k' = k then (k', c + 1) :: rest else (k', c) :: bump rest k

/-- The `counts` mapping built by the loop of `score_guess`. -/
def countsList (guess : Word) (words : List Word) :
    List (List Classification × Nat) :=
  words.foldl (fun m w => bump m (classify_guess guess w)) []

/-- `statistics.mean` of a list of naturals, as an exact rational (written
with `Rat.divInt`, which is definitionally computable; it equals ordinary
rational division, see `statistics_mean_eq_div`).  Python raises
`StatisticsError` on an empty list; the embedding returns `0` there, a case
never reached by claims that assume a nonempty candidate set. -/
def statistics_mean (l : List Nat) : ℚ := Rat.divInt (l.sum : Int) (l.length : Int)

/-- `score_guess(guess, words)` from the source: the mean of the bucket
sizes of the classification-vector partition. -/
def score_guess (guess : Word) (words : List Word) : ℚ :=
  statistics_mean ((countsList guess words).map Prod.snd)

/-- `make_guess(potential_answers, all_words)`: Python's
`min(all_words, key=_score)`, which keeps the earliest minimiser; `none`
models the `ValueError` raised on an empty vocabulary. -/
def make_guess (potential_answers all_words : List Word) : Option Word :=
  match all_words with
  | [] => none
  | w :: rest =>
    some (rest.foldl
      (fun best x =>
        if score_guess x potential_answers < score_guess best potential_answers
        then x else best) w)

/-- The state of the `for` loop in `make_guess_with_loop`: the running
minimum, the current best word, and the Python variable `score` after the
most recent iteration (`none` while still unbound). -/
structure LoopState where
  min_score : ℚ
  guess : Option Word
  last : Option ℚ
deriving DecidableEq, Repr

/-- One iteration of the `for` loop in `make_guess_with_loop`. -/
def loopStep (potential_answers : List Word) (s : LoopState) (word : Word) :
    LoopState :=
  let sc := score_guess word potential_answers
  if sc < s.min_score then ⟨sc, some word, some sc⟩
  else ⟨s.min_score, s.guess, some sc⟩

/-- The whole `for` loop of `make_guess_with_loop`, started from
`min_score = len(possible_guesses)` and `guess = None` as in the source. -/
def loopRun (potential_answers possible_guesses : List Word) : LoopState :=
  possible_guesses.foldl (loopStep potential_answers)
    ⟨(possible_guesses.length : ℚ), none, none⟩

/-- `make_guess_with_loop(...)` with `return_score=False`. -/
def make_guess_with_loop (potential_answers possible_guesses : List Word) :
    Option Word :=
  (loopRun potential_answers possible_guesses).guess

/-- `make_guess_with_loop(..., return_score=True)`, which returns the pair
`(score, guess)` where `score` is the loop variable left over from the last
iteration; `none` models the `NameError` on an empty vocabulary (the
variable `score` was never assigned). -/
def make_guess_with_loop_rs (potential_answers possible_guesses : List Word) :
    Option (ℚ × Option Word) :=
  match (loopRun potential_answers possible_guesses).last with
  | none => none
  | some s => some (s, (loopRun potential_answers possible_guesses).guess)

/-- Python string comparison (`<`) between two words. -/
def wordLt : Word → Word → Bool
  | [], [] => false
  | [], _ :: _ => true
  | _ :: _, [] => false
  | a :: as, b :: bs => if a < b then true else if b < a then false else wordLt as bs

/-- `make_guess_with_pool(potential_answers, all_words, pool)`: one
`(score, word)` pair per vocabulary word, reduced with `min`, which orders
pairs lexicographically (score first, then word).  The minimum of the pair
multiset does not depend on the completion order of the pool futures, so
the pairs are folded in vocabulary order; `none` models the `ValueError`
on an empty vocabulary. -/
def make_guess_with_pool (potential_answers all_words : List Word) :
    Option Word :=
  match all_words.map (fun w => (score_guess w potential_answers, w)) with
  | [] => none
  | p :: ps =>
    some (ps.foldl
      (fun best q =>
        if q.1 < best.1 ∨ (q.1 = best.1 ∧ wordLt q.2 best.2) then q else best)
      p).2

inductive ChunkErr where
  | emptyMin
  | typeError
  | nameError
deriving DecidableEq, Repr

/-- One comparison step of Python's `min` over `(score, word-or-None)`
pairs: scores are compared first; a tie falls back to comparing the word
components, which raises `TypeError` when either is `None`. -/
def pyPairMinStep (best q : ℚ × Option Word) :
    Except ChunkErr (ℚ × Option Word) :=
  if q.1 < best.1 then Except.ok q
  else if best.1 < q.1 then Except.ok best
  else
    match q.2, best.2 with
    | some w1, some w2 => Except.ok (if wordLt w1 w2 then q else best)
    | _, _ => Except.error ChunkErr.typeError

/-- Python's `min` over a list of `(score, word-or-None)` pairs;
`emptyMin` models the `ValueError` on an empty sequence. -/
def pyPairMin : List (ℚ × Option Word) → Except ChunkErr (ℚ × Option Word)
  | [] => Except.error ChunkErr.emptyMin
  | p :: ps => ps.foldlM pyPairMinStep p

/-- `make_guess_with_pool_chunked(potential_answers, all_words, pool)`:
split the vocabulary into `MAX_WORKERS` contiguous slices of size
`ceil(len(all_words) / MAX_WORKERS)`, run
`make_guess_with_loop(..., return_score=True)` on each nonempty slice, and
take the `min` of the resulting `(score, guess)` pairs.  The word
component of the result may be `None`. -/
def make_guess_with_pool_chunked (potential_answers all_words : List Word) :
    Except ChunkErr (Option Word) :=
  let n := (all_words.length + MAX_WORKERS - 1) / MAX_WORKERS
  let splits := (List.range MAX_WORKERS).map
    (fun i => (all_words.drop (i * n)).take n)
  match (splits.filter (fun c => !c.isEmpty)).mapM
      (fun gs => make_guess_with_loop_rs potential_answers gs) with
  | none => Except.error ChunkErr.nameError
  | some results =>
    match pyPairMin results with
    | Except.error e => Except.error e
    | Except.ok p => Except.ok p.2

instance {ε α : Type} [DecidableEq ε] [DecidableEq α] : DecidableEq (Except ε α)
  | Except.ok x, Except.ok y =>
    if h : x = y then isTrue (by rw [h])
    else isFalse (fun he => h (Except.ok.inj he))
  | Except.error x, Except.error y =>
    if h : x = y then isTrue (by rw [h])
    else isFalse (fun he => h (Except.error.inj he))
  | Except.ok _, Except.error _ => isFalse (fun he => Except.noConfusion he)
  | Except.error _, Except.ok _ => isFalse (fun he => Except.noConfusion he)

/-- One turn of the solve loop, recorded at the moment the selector is
invoked: the candidate set, the vocabulary handed to the selector, the
guess history so far, and the guess the selector chose. -/
structure TurnRecord where
  candidates : List Word
  vocab : List Word
  history : List Word
  guess : Word
deriving DecidableEq, Repr, Inhabited

/-- The exceptions that can escape `play_wordle`: the explicit guess-limit
`raise` (carrying `guess_list`), a selector that produced no word (empty
vocabulary or a `None` chunked result), `potential_answers[0]` on an empty
list after the loop, and exhausted fuel (never reached from
`play_wordle`, whose fuel exceeds the 22 iterations the guess limit
allows). -/
inductive PlayError where
  | guessLimit (history : List Word)
  | selectorFailed
  | emptyCandidates
  | fuelOut
deriving DecidableEq, Repr

/-- The `mode == Mode...` dispatch in the loop body of `play_wordle`. -/
def selectGuess (mode : Mode) (potential_answers guesses : List Word) :
    Option Word :=
  match mode with
  | Mode.NO_POOL => make_guess potential_answers guesses
  | Mode.POOL => make_guess_with_pool potential_answers guesses
  | Mode.CHUNKED_POOL =>
    match make_guess_with_pool_chunked potential_answers guesses with
    | Except.ok (some w) => some w
    | _ => none

/-- The `potential_answers = filter_words(...)` update of the loop body:
the candidate set after applying the real feedback for `guess`. -/
def nextCandidates (target : Word) (potential_answers : List Word)
    (guess : Word) : List Word :=
  filter_words potential_answers guess (classify_guess guess target)

/-- The `guesses = ...` update of the loop body: hard mode takes the new
candidate set minus the current guess and all previous guesses; easy mode
removes the current guess from the previous vocabulary. -/
def nextVocab (target : Word) (hard : Bool)
    (potential_answers guesses guess_list : List Word) (guess : Word) :
    List Word :=
  if hard then
    (nextCandidates target potential_answers guess).filter
      (fun i => decide (i ≠ guess ∧ i ∉ guess_list))
  else
    guesses.filter (fun i => decide (i ≠ guess))

def playBody (target : Word) (hard : Bool) (mode : Mode)
    (recur : List Word → List Word → List Word →
      List TurnRecord × Except PlayError (List Word))
    (potential_answers guesses guess_list : List Word) :
    List TurnRecord × Except PlayError (List Word) :=
  if 1 < potential_answers.length then
    match selectGuess mode potential_answers guesses with
    | none => ([], Except.error PlayError.selectorFailed)
    | some guess =>
      let record : TurnRecord := ⟨potential_answers, guesses, guess_list, guess⟩
      let pa2 := nextCandidates target potential_answers guess
      let guesses2 := nextVocab target hard potential_answers guesses
        guess_list guess
      if 20 < guess_list.length then
        ([record], Except.error (PlayError.guessLimit guess_list))
      else
        let rest := recur pa2 guesses2 (guess_list ++ [guess])
        (record :: rest.1, rest.2)
  else
    match potential_answers with
    | [] => ([], Except.error PlayError.emptyCandidates)
    | w :: _ => ([], Except.ok (guess_list ++ [w]))

/-- The `while len(potential_answers) > 1` loop of `play_wordle`, with a
fuel parameter for termination (the guess-limit check bounds the loop at
22 iterations, so any fuel above that is equivalent; `play_wordle` passes
30).  Returns the list of turn records — instrumentation for the theorems
below — paired with the Python result: the final `guess_list` on success,
or the raised exception. -/
def playLoop (words : List Word) (target : Word) (hard : Bool) (mode : Mode) :
    Nat → List Word → List Word → List Word →
      List TurnRecord × Except PlayError (List Word)
  | 0, _, _, _ => ([], Except.error PlayError.fuelOut)
  | fuel + 1, potential_answers, guesses, guess_list =>
    playBody target hard mode (playLoop words target hard mode fuel)
      potential_answers guesses guess_list

/-- `play_wordle(words, first_guess, target_word, hard_mode, mode)` from
the source (console output omitted). -/
def play_wordle (words : List Word) (first_guess : Option Word) (target : Word)
    (hard : Bool) (mode : Mode) :
    List TurnRecord × Except PlayError (List Word) :=
  match first_guess with
  | some fg =>
    let classify_first := classify_guess fg target
    let potential_answers := filter_words words fg classify_first
    playLoop words target hard mode 30 potential_answers
      (if hard then potential_answers else words) [fg]
  | none =>
    let potential_answers := words
    playLoop words target hard mode 30 potential_answers
      (if hard then potential_answers else words) []

/-- A vocabulary of 23 single-letter words, pairwise letter-disjoint and
sharing no letter with the target `"z"`: every guess earns all-BLANK
feedback, each filter application removes only the guessed word, and the
game can never reach a singleton candidate set before the guess limit. -/
def wordsC3 : List Word := [['a'], ['b'], ['c'], ['d'], ['e'], ['f'], ['g'],
  ['h'], ['i'], ['j'], ['k'], ['l'], ['m'], ['n'], ['o'], ['p'], ['q'],
  ['r'], ['s'], ['t'], ['u'], ['v'], ['w']]

theorem statistics_mean_eq_div (l : List Nat) :
    statistics_mean l = (l.sum : ℚ) / (l.length : ℚ) := by
  rw [statistics_mean, Rat.divInt_eq_div]
  simp only [Int.cast_natCast]

/-- Claim C4 counterexample: the code classifies `"aaaaa"` against
`"abcde"` as GREEN then four YELLOWs (the letter a occurs in the answer),
not GREEN then four BLANKs as the scenario states. -/
theorem claim_C4_counterexample :
    classify_guess ['a', 'a', 'a', 'a', 'a'] ['a', 'b', 'c', 'd', 'e'] ≠
      [Classification.GREEN, Classification.BLANK, Classification.BLANK,
       Classification.BLANK, Classification.BLANK] := by
  decide

/-- Claim C4 (amended): `classify_guess("aaaaa", "abcde")` returns
`[GREEN, YELLOW, YELLOW, YELLOW, YELLOW]`. -/
theorem claim_C4_amended_scenario :
    classify_guess ['a', 'a', 'a', 'a', 'a'] ['a', 'b', 'c', 'd', 'e'] =
      [Classification.GREEN, Classification.YELLOW, Classification.YELLOW,
       Classification.YELLOW, Classification.YELLOW] := by
  decide

/-- Claim C8: filtering by the same (guess, classification) pair twice gives
the same list as filtering once. -/
theorem claim_C8_idempotence (S : List Word) (g : Word)
    (v : List Classification) :
    filter_words (filter_words S g v) g v = filter_words S g v := by
  unfold filter_words
  rw [List.filter_filter]
  exact List.filter_congr (fun w _ => Bool.and_self _)

/-- The answer always survives the per-position checks generated by its own
classification vector: each label stored for a position was computed from
the very predicate the filter re-checks at that position. -/
theorem keepsWord_classify_self (a : Word) :
    ∀ (g : Word) (pos : Nat),
      keepsWord a pos ((classifyAux a pos g).zip g) = true := by
  intro g
  induction g with
  | nil => intro pos; simp [classifyAux, keepsWord]
  | cons letter rest ih =>
    intro pos
    by_cases hg : a.getD pos ' ' = letter
    · have hcl : classifyAux a pos (letter :: rest) =
          Classification.GREEN :: classifyAux a (pos + 1) rest := by
        rw [classifyAux, if_pos hg]
      rw [hcl, List.zip_cons_cons]
      show (if a.getD pos ' ' ≠ letter then false
            else keepsWord a (pos + 1) ((classifyAux a (pos + 1) rest).zip rest)) = true
      rw [if_neg (not_not_intro hg)]
      exact ih (pos + 1)
    · by_cases hm : letter ∈ a
      · have hcl : classifyAux a pos (letter :: rest) =
            Classification.YELLOW :: classifyAux a (pos + 1) rest := by
          rw [classifyAux, if_neg hg, if_pos hm]
        rw [hcl, List.zip_cons_cons]
        show (if a.getD pos ' ' = letter ∨ letter ∉ a then false
              else keepsWord a (pos + 1) ((classifyAux a (pos + 1) rest).zip rest)) = true
        rw [if_neg (not_or.mpr ⟨hg, not_not_intro hm⟩)]
        exact ih (pos + 1)
      · have hcl : classifyAux a pos (letter :: rest) =
            Classification.BLANK :: classifyAux a (pos + 1) rest := by
          rw [classifyAux, if_neg hg, if_neg hm]
        rw [hcl, List.zip_cons_cons]
        show (if letter ∈ a then false
              else keepsWord a (pos + 1) ((classifyAux a (pos + 1) rest).zip rest)) = true
        rw [if_neg hm]
        exact ih (pos + 1)

/-- Claim C1: soundness of pruning.  For every guess `g`, answer `a` and
candidate list `S` with `a ∈ S`, the answer `a` survives
`filter_words(S, g, classify_guess(g, a))`. -/
theorem claim_C1_filter_soundness (g a : Word) (S : List Word) (ha : a ∈ S) :
    a ∈ filter_words S g (classify_guess g a) := by
  unfold filter_words classify_guess
  exact List.mem_filter.mpr ⟨ha, keepsWord_classify_self a g 0⟩

/-- Claim C1 witness: a concrete instance of filter soundness. -/
theorem claim_C1_witness :
    ['s', 'n', 'a', 'k', 'e'] ∈
      filter_words [['c', 'r', 'a', 'n', 'e'], ['s', 'n', 'a', 'k', 'e']]
        ['c', 'r', 'a', 'n', 'e']
        (classify_guess ['c', 'r', 'a', 'n', 'e'] ['s', 'n', 'a', 'k', 'e']) :=
  claim_C1_filter_soundness ['c', 'r', 'a', 'n', 'e'] ['s', 'n', 'a', 'k', 'e']
    [['c', 'r', 'a', 'n', 'e'], ['s', 'n', 'a', 'k', 'e']] (by decide)

theorem bump_snd_sum (m : List (List Classification × Nat))
    (k : List Classification) :
    ((bump m k).map Prod.snd).sum = (m.map Prod.snd).sum + 1 := by
  induction m with
  | nil => simp [bump]
  | cons p rest ih =>
    obtain ⟨k', c⟩ := p
    by_cases h : k' = k
    · simp [bump, h]
      omega
    · simp [bump, h, ih]
      omega

theorem foldl_bump_sum (guess : Word) :
    ∀ (ws : List Word) (m : List (List Classification × Nat)),
      (((ws.foldl (fun m w => bump m (classify_guess guess w)) m)).map
          Prod.snd).sum = (m.map Prod.snd).sum + ws.length := by
  intro ws
  induction ws with
  | nil => intro m; simp
  | cons w rest ih =>
    intro m
    rw [List.foldl_cons, ih, bump_snd_sum]
    simp
    omega

theorem bump_fst_mem (m : List (List Classification × Nat))
    (k : List Classification) (h : k ∈ m.map Prod.fst) :
    (bump m k).map Prod.fst = m.map Prod.fst := by
  induction m with
  | nil => simp at h
  | cons p rest ih =>
    obtain ⟨k', c⟩ := p
    by_cases hk : k' = k
    · simp [bump, hk]
    · have : k ∈ rest.map Prod.fst := by
        rcases List.mem_cons.mp h with h1 | h1
        · exact absurd h1.symm hk
        · exact h1
      simp [bump, hk, ih this]

theorem bump_fst_notmem (m : List (List Classification × Nat))
    (k : List Classification) (h : k ∉ m.map Prod.fst) :
    (bump m k).map Prod.fst = m.map Prod.fst ++ [k] := by
  induction m with
  | nil => simp [bump]
  | cons p rest ih =>
    obtain ⟨k', c⟩ := p
    have hk : k' ≠ k := by
      intro he
      exact h (by simp [he])
    have hr : k ∉ rest.map Prod.fst := fun hm => h (by simp [hm])
    simp [bump, hk, ih hr]

theorem bump_fst_nodup (m : List (List Classification × Nat))
    (k : List Classification) (h : (m.map Prod.fst).Nodup) :
    ((bump m k).map Prod.fst).Nodup := by
  by_cases hk : k ∈ m.map Prod.fst
  · rwa [bump_fst_mem m k hk]
  · rw [bump_fst_notmem m k hk]
    simp [List.nodup_append, h, hk]

theorem bump_fst_toFinset (m : List (List Classification × Nat))
    (k : List Classification) :
    ((bump m k).map Prod.fst).toFinset = insert k (m.map Prod.fst).toFinset := by
  by_cases hk : k ∈ m.map Prod.fst
  · rw [bump_fst_mem m k hk]
    exact (Finset.insert_eq_self.mpr (List.mem_toFinset.mpr hk)).symm
  · rw [bump_fst_notmem m k hk, List.toFinset_append]
    ext x
    simp [or_comm]

theorem foldl_bump_keys (guess : Word) :
    ∀ (ws : List Word) (m : List (List Classification × Nat)),
      (((ws.foldl (fun m w => bump m (classify_guess guess w)) m).map
          Prod.fst).toFinset
        = (m.map Prod.fst).toFinset ∪ (ws.map (classify_guess guess)).toFinset)
      ∧ ((m.map Prod.fst).Nodup →
          ((ws.foldl (fun m w => bump m (classify_guess guess w)) m).map
            Prod.fst).Nodup) := by
  intro ws
  induction ws with
  | nil => intro m; simp
  | cons w rest ih =>
    intro m
    constructor
    · rw [List.foldl_cons, (ih _).1, bump_fst_toFinset]
      rw [List.map_cons, List.toFinset_cons, Finset.insert_union,
        Finset.union_insert]
    · intro hnd
      exact (ih _).2 (bump_fst_nodup m _ hnd)

/-- The number of keys of the `counts` mapping is the number of distinct
classification vectors among the candidates. -/
theorem countsList_length (guess : Word) (words : List Word) :
    (countsList guess words).length =
      (words.map (classify_guess guess)).dedup.length := by
  have h := foldl_bump_keys guess words []
  have hnd : ((countsList guess words).map Prod.fst).Nodup := by
    have := h.2 (by simp)
    simpa [countsList] using this
  have hfin : ((countsList guess words).map Prod.fst).toFinset =
      (words.map (classify_guess guess)).toFinset := by
    have := h.1
    simpa [countsList] using this
  have h1 : (countsList guess words).length =
      ((countsList guess words).map Prod.fst).length := by
    rw [List.length_map]
  rw [h1, ← List.toFinset_card_of_nodup hnd, hfin, List.card_toFinset]

/-- The bucket sizes of the `counts` mapping sum to the number of
candidates. -/
theorem countsList_sum (guess : Word) (words : List Word) :
    ((countsList guess words).map Prod.snd).sum = words.length := by
  have := foldl_bump_sum guess words []
  simpa [countsList] using this

/-- Closed form of `score_guess`: candidate count over distinct-vector
count. -/
theorem score_guess_eq (g : Word) (S : List Word) :
    score_guess g S =
      (S.length : ℚ) / (((S.map (classify_guess g)).dedup.length : ℚ)) := by
  unfold score_guess
  rw [statistics_mean_eq_div, countsList_sum, List.length_map, countsList_length]

/-- Claim C5: for a non-empty candidate list `S`, `score_guess(g, S)`
equals `|S|` divided by the number of distinct classification vectors that
`g` produces against the words of `S`. -/
theorem claim_C5_score_definition (g : Word) (S : List Word) (hS : S ≠ []) :
    score_guess g S =
      (S.length : ℚ) / (((S.map (classify_guess g)).dedup.length : ℚ)) :=
  score_guess_eq g S

/-- Claim C5 witness: a concrete evaluation of the score formula. -/
theorem claim_C5_witness :
    score_guess ['a', 'b'] [['a', 'b'], ['a', 'c'], ['z', 'z']] =
      ((3 : ℚ)) / (((([['a', 'b'], ['a', 'c'], ['z', 'z']].map
          (classify_guess ['a', 'b'])).dedup.length : ℚ))) := by
  have h := claim_C5_score_definition ['a', 'b']
    [['a', 'b'], ['a', 'c'], ['z', 'z']] (by decide)
  simpa using h

theorem loopRun_guess_none (pa : List Word) :
    ∀ (pg : List Word) (c : ℚ) (lastv : Option ℚ),
      (∀ w ∈ pg, ¬ score_guess w pa < c) →
      (pg.foldl (loopStep pa) ⟨c, none, lastv⟩).guess = none := by
  intro pg
  induction pg with
  | nil => intro c lastv _; rfl
  | cons w rest ih =>
    intro c lastv h
    rw [List.foldl_cons]
    have hw : ¬ score_guess w pa < c := h w (List.mem_cons_self w rest)
    have hstep : loopStep pa ⟨c, none, lastv⟩ w =
        ⟨c, none, some (score_guess w pa)⟩ := by
      simp [loopStep, hw]
    rw [hstep]
    exact ih c _ (fun x hx => h x (List.mem_cons_of_mem w hx))

theorem loopRun_last_eq (pa : List Word) :
    ∀ (pg : List Word) (s : LoopState) (h : pg ≠ []),
      (pg.foldl (loopStep pa) s).last =
        some (score_guess (pg.getLast h) pa) := by
  intro pg
  induction pg with
  | nil => intro s h; exact absurd rfl h
  | cons w rest ih =>
    intro s h
    cases rest with
    | nil =>
      show (loopStep pa s w).last = some (score_guess w pa)
      simp only [loopStep]
      split <;> rfl
    | cons w2 rest2 =>
      rw [List.foldl_cons]
      have hne : w2 :: rest2 ≠ [] := List.cons_ne_nil w2 rest2
      rw [ih (loopStep pa s w) hne]
      rfl

/-- Every score of a guess against a nonempty candidate list is at least
one: the bucket sizes are positive, so their mean is at least one. -/
theorem one_le_score_guess (w : Word) (pa : List Word) (h : pa ≠ []) :
    1 ≤ score_guess w pa := by
  rw [score_guess_eq]
  have hmap : pa.map (classify_guess w) ≠ [] := by simpa using h
  have hdne : (pa.map (classify_guess w)).dedup ≠ [] := by
    simpa [List.dedup_eq_nil] using hmap
  have hk : 0 < (pa.map (classify_guess w)).dedup.length :=
    List.length_pos.mpr hdne
  have hkn : (pa.map (classify_guess w)).dedup.length ≤ pa.length := by
    have := (List.dedup_sublist (pa.map (classify_guess w))).length_le
    simpa using this
  rw [le_div_iff₀ (by exact_mod_cast hk), one_mul]
  exact_mod_cast hkn

/-- Claim C9: `make_guess_with_loop` starts its running minimum at
`len(possible_guesses)` and only updates on strictly smaller scores, so it
returns `None` whenever no word scores strictly below the vocabulary
length — in particular on every singleton vocabulary, since every score is
at least one — and with `return_score=True` the returned pair carries the
score of the last word examined. -/
theorem claim_C9_loop_selector (pa pg : List Word) :
    ((∀ w ∈ pg, ¬ score_guess w pa < (pg.length : ℚ)) →
      make_guess_with_loop pa pg = none)
    ∧ (pa ≠ [] → ∀ w : Word, make_guess_with_loop pa [w] = none)
    ∧ (∀ h : pg ≠ [],
        make_guess_with_loop_rs pa pg =
          some (score_guess (pg.getLast h) pa, make_guess_with_loop pa pg)) := by
  refine ⟨?_, ?_, ?_⟩
  · intro h
    exact loopRun_guess_none pa pg (pg.length : ℚ) none h
  · intro hpa w
    have hone : ∀ x ∈ [w], ¬ score_guess x pa < (([w] : List Word).length : ℚ) := by
      intro x hx
      have hx1 : x = w := by simpa using hx
      subst hx1
      simp only [List.length_cons, List.length_nil, Nat.cast_one]
      exact not_lt.mpr (one_le_score_guess x pa hpa)
    exact loopRun_guess_none pa [w] _ none hone
  · intro h
    have hl : (loopRun pa pg).last = some (score_guess (pg.getLast h) pa) :=
      loopRun_last_eq pa pg _ h
    unfold make_guess_with_loop_rs make_guess_with_loop
    rw [hl]

/-- Claim C9 witness: on a singleton vocabulary the loop selector returns
no word at all. -/
theorem claim_C9_witness :
    make_guess_with_loop [['a', 'b']] [['c', 'd']] = none :=
  (claim_C9_loop_selector [['a', 'b']] [['c', 'd']]).2.1 (by decide) ['c', 'd']

/-- Claim C2 (failing input for the strategy-equivalence requirement): with
candidates `["ab", "ac"]` and vocabulary `["ab", "zz"]`, the sequential and
flat-parallel selectors both return `"ab"`, which attains the minimal score
over the vocabulary, but the chunked-parallel selector returns no word at
all (every chunk has a single word, whose score cannot be strictly below
the chunk length, so every per-chunk guess is `None`). -/
theorem claim_C2_strategy_divergence :
    make_guess [['a', 'b'], ['a', 'c']] [['a', 'b'], ['z', 'z']] =
      some ['a', 'b']
    ∧ make_guess_with_pool [['a', 'b'], ['a', 'c']] [['a', 'b'], ['z', 'z']] =
      some ['a', 'b']
    ∧ (∀ w ∈ [['a', 'b'], ['z', 'z']],
        score_guess ['a', 'b'] [['a', 'b'], ['a', 'c']] ≤
          score_guess w [['a', 'b'], ['a', 'c']])
    ∧ make_guess_with_pool_chunked [['a', 'b'], ['a', 'c']]
        [['a', 'b'], ['z', 'z']] = Except.ok none := by
  decide

theorem playLoop_succ_continue (words : List Word) (target : Word)
    (hard : Bool) (mode : Mode) (fuel : Nat) (pa gs gl : List Word)
    (guess : Word) (hlen : 1 < pa.length)
    (hsel : selectGuess mode pa gs = some guess)
    (hgl : ¬ 20 < gl.length) :
    playLoop words target hard mode (fuel + 1) pa gs gl =
      ((⟨pa, gs, gl, guess⟩ : TurnRecord) ::
          (playLoop words target hard mode fuel
            (nextCandidates target pa guess)
            (nextVocab target hard pa gs gl guess) (gl ++ [guess])).1,
        (playLoop words target hard mode fuel
          (nextCandidates target pa guess)
          (nextVocab target hard pa gs gl guess) (gl ++ [guess])).2) := by
  rw [playLoop, playBody.eq_def, if_pos hlen, hsel]
  show (if 20 < gl.length then
      ([(⟨pa, gs, gl, guess⟩ : TurnRecord)],
        Except.error (PlayError.guessLimit gl))
    else
      ((⟨pa, gs, gl, guess⟩ : TurnRecord) ::
          (playLoop words target hard mode fuel
            (nextCandidates target pa guess)
            (nextVocab target hard pa gs gl guess) (gl ++ [guess])).1,
        (playLoop words target hard mode fuel
          (nextCandidates target pa guess)
          (nextVocab target hard pa gs gl guess) (gl ++ [guess])).2)) = _
  rw [if_neg hgl]

theorem playLoop_succ_raise (words : List Word) (target : Word)
    (hard : Bool) (mode : Mode) (fuel : Nat) (pa gs gl : List Word)
    (guess : Word) (hlen : 1 < pa.length)
    (hsel : selectGuess mode pa gs = some guess)
    (hgl : 20 < gl.length) :
    playLoop words target hard mode (fuel + 1) pa gs gl =
      ([(⟨pa, gs, gl, guess⟩ : TurnRecord)],
        Except.error (PlayError.guessLimit gl)) := by
  rw [playLoop, playBody.eq_def, if_pos hlen, hsel]
  show (if 20 < gl.length then
      ([(⟨pa, gs, gl, guess⟩ : TurnRecord)],
        Except.error (PlayError.guessLimit gl))
    else
      ((⟨pa, gs, gl, guess⟩ : TurnRecord) ::
          (playLoop words target hard mode fuel
            (nextCandidates target pa guess)
            (nextVocab target hard pa gs gl guess) (gl ++ [guess])).1,
        (playLoop words target hard mode fuel
          (nextCandidates target pa guess)
          (nextVocab target hard pa gs gl guess) (gl ++ [guess])).2)) = _
  rw [if_pos hgl]

theorem playLoop_succ_solved (words : List Word) (target : Word)
    (hard : Bool) (mode : Mode) (fuel : Nat) (w : Word)
    (rest gs gl : List Word) (hlen : ¬ 1 < (w :: rest).length) :
    playLoop words target hard mode (fuel + 1) (w :: rest) gs gl =
      ([], Except.ok (gl ++ [w])) := by
  rw [playLoop, playBody.eq_def, if_neg hlen]

theorem playLoop_guessLimit_length (words : List Word) (target : Word)
    (hard : Bool) (mode : Mode) :
    ∀ (fuel : Nat) (pa gs gl h : List Word),
      gl.length ≤ 21 →
      (playLoop words target hard mode fuel pa gs gl).2 =
        Except.error (PlayError.guessLimit h) →
      h.length = 21 := by
  intro fuel
  induction fuel with
  | zero =>
    intro pa gs gl h _ he
    simp [playLoop] at he
  | succ fuel ih =>
    intro pa gs gl h hle he
    rw [playLoop, playBody.eq_def] at he
    by_cases hlen : 1 < pa.length
    · cases hsel : selectGuess mode pa gs with
      | none => simp [hlen, hsel] at he
      | some guess =>
        by_cases hgl : 20 < gl.length
        · simp [hlen, hsel, hgl] at he
          subst he
          omega
        · simp [hlen, hsel, hgl] at he
          exact ih _ _ (gl ++ [guess]) h (by simp; omega) he
    · cases pa with
      | nil => simp at he
      | cons w rest =>
        have hr : rest = [] := by
          rw [List.length_cons] at hlen
          exact List.length_eq_zero.mp (by omega)
        subst hr
        simp at he

/-- Claim C3: whenever `play_wordle` raises the guess-limit exception, the
guess history it carries has exactly 21 entries — the check `> 20` fires
at the first moment the history holds 21 guesses, never with fewer and
never with more. -/
theorem claim_C3_guess_limit (words : List Word) (first_guess : Option Word)
    (target : Word) (hard : Bool) (mode : Mode) (h : List Word)
    (he : (play_wordle words first_guess target hard mode).2 =
      Except.error (PlayError.guessLimit h)) :
    h.length = 21 := by
  cases first_guess with
  | none =>
    exact playLoop_guessLimit_length words target hard mode 30 _ _ _ h
      (by simp) he
  | some fg =>
    exact playLoop_guessLimit_length words target hard mode 30 _ _ _ h
      (by simp) he

set_option maxRecDepth 10000 in
/-- Claim C3 witness: the unreachable-secret game raises the guess-limit
exception, and the history it carries has exactly 21 entries. -/
theorem claim_C3_witness :
    (play_wordle wordsC3 none ['z'] false Mode.NO_POOL).2 =
      Except.error (PlayError.guessLimit (wordsC3.take 21)) ∧
    (wordsC3.take 21).length = 21 :=
  ⟨by decide,
    claim_C3_guess_limit wordsC3 none ['z'] false Mode.NO_POOL
      (wordsC3.take 21) (by decide)⟩

theorem playLoop_trace_head (words : List Word) (target : Word) (hard : Bool)
    (mode : Mode) (fuel : Nat) (pa gs gl : List Word) (r : TurnRecord)
    (h : (playLoop words target hard mode fuel pa gs gl).1.head? = some r) :
    r.candidates = pa := by
  cases fuel with
  | zero => simp [playLoop] at h
  | succ fuel =>
    rw [playLoop, playBody.eq_def] at h
    by_cases hlen : 1 < pa.length
    · cases hsel : selectGuess mode pa gs with
      | none => simp [hlen, hsel] at h
      | some guess =>
        by_cases hgl : 20 < gl.length
        · simp [hlen, hsel, hgl] at h
          rw [← h]
        · simp [hlen, hsel, hgl] at h
          rw [← h]
    · cases pa with
      | nil => simp at h
      | cons w rest =>
        have hr : rest = [] := by
          rw [List.length_cons] at hlen
          exact List.length_eq_zero.mp (by omega)
        subst hr
        simp at h

theorem playLoop_chain (words : List Word) (target : Word) (hard : Bool)
    (mode : Mode) :
    ∀ (fuel : Nat) (pa gs gl : List Word),
      List.Chain' (fun r1 r2 => r2.candidates.length ≤ r1.candidates.length)
        (playLoop words target hard mode fuel pa gs gl).1 := by
  intro fuel
  induction fuel with
  | zero => intro pa gs gl; simp [playLoop]
  | succ fuel ih =>
    intro pa gs gl
    by_cases hlen : 1 < pa.length
    · cases hsel : selectGuess mode pa gs with
      | none =>
        rw [playLoop, playBody.eq_def, if_pos hlen, hsel]
        simp
      | some guess =>
        by_cases hgl : 20 < gl.length
        · rw [playLoop_succ_raise words target hard mode fuel
            pa gs gl guess hlen hsel hgl]
          simp
        · rw [playLoop_succ_continue words target hard mode fuel
            pa gs gl guess hlen hsel hgl]
          show List.Chain' _ ((⟨pa, gs, gl, guess⟩ : TurnRecord) ::
            (playLoop words target hard mode fuel
              (nextCandidates target pa guess)
              (nextVocab target hard pa gs gl guess) (gl ++ [guess])).1)
          rw [List.chain'_cons']
          refine ⟨?_, ih _ _ _⟩
          intro y hy
          have hc := playLoop_trace_head words target hard mode fuel _ _ _ y
            (Option.mem_def.mp hy)
          rw [hc, nextCandidates]
          exact List.length_filter_le _ _
    · cases pa with
      | nil =>
        rw [playLoop, playBody.eq_def, if_neg hlen]
        simp
      | cons w rest =>
        rw [playLoop_succ_solved words target hard mode fuel w rest gs gl hlen]
        simp

/-- Claim C7: pruning is monotone — `filter_words` never returns a longer
list than it was given — and, consequently, along every run of
`play_wordle` the candidate set recorded at each turn is never larger than
the candidate set of the preceding turn. -/
theorem claim_C7_monotonicity :
    (∀ (S : List Word) (g : Word) (v : List Classification),
      (filter_words S g v).length ≤ S.length)
    ∧ (∀ (words : List Word) (first_guess : Option Word) (target : Word)
        (hard : Bool) (mode : Mode),
        List.Chain' (fun r1 r2 => r2.candidates.length ≤ r1.candidates.length)
          (play_wordle words first_guess target hard mode).1) := by
  constructor
  · intro S g v
    exact List.length_filter_le _ _
  · intro words first_guess target hard mode
    cases first_guess with
    | none => exact playLoop_chain words target hard mode 30 _ _ _
    | some fg => exact playLoop_chain words target hard mode 30 _ _ _

theorem playLoop_ok_shape (words : List Word) (target : Word) (hard : Bool)
    (mode : Mode) :
    ∀ (fuel : Nat) (pa gs gl h : List Word),
      (playLoop words target hard mode fuel pa gs gl).2 = Except.ok h →
      ∃ s : Word,
        h = gl ++ ((playLoop words target hard mode fuel pa gs gl).1.map
          TurnRecord.guess) ++ [s] := by
  intro fuel
  induction fuel with
  | zero => intro pa gs gl h he; simp [playLoop] at he
  | succ fuel ih =>
    intro pa gs gl h he
    by_cases hlen : 1 < pa.length
    · cases hsel : selectGuess mode pa gs with
      | none =>
        rw [playLoop, playBody.eq_def, if_pos hlen, hsel] at he
        simp at he
      | some guess =>
        by_cases hgl : 20 < gl.length
        · rw [playLoop_succ_raise words target hard mode fuel pa gs gl guess
            hlen hsel hgl] at he
          simp at he
        · rw [playLoop_succ_continue words target hard mode fuel pa gs gl guess
            hlen hsel hgl] at he
          rw [playLoop_succ_continue words target hard mode fuel pa gs gl guess
            hlen hsel hgl]
          obtain ⟨s, hs⟩ := ih _ _ _ h he
          refine ⟨s, ?_⟩
          rw [hs]
          simp
    · cases pa with
      | nil =>
        rw [playLoop, playBody.eq_def, if_neg hlen] at he
        simp at he
      | cons w rest =>
        rw [playLoop_succ_solved words target hard mode fuel w rest gs gl hlen]
          at he
        rw [playLoop_succ_solved words target hard mode fuel w rest gs gl hlen]
        simp only [Except.ok.injEq] at he
        exact ⟨w, by rw [← he]; simp⟩

theorem playLoop_dup_tail (words : List Word) (target : Word) (hard : Bool)
    (mode : Mode) (fuel : Nat) (pa gs gl0 h : List Word) (r : TurnRecord)
    (hok : (playLoop words target hard mode fuel pa gs gl0).2 = Except.ok h)
    (hlast : (playLoop words target hard mode fuel pa gs gl0).1.getLast? =
      some r)
    (hdup : h.getLast? = some r.guess) :
    ∃ pre, h = pre ++ [r.guess, r.guess] := by
  obtain ⟨s, hs⟩ := playLoop_ok_shape words target hard mode fuel pa gs gl0 h hok
  obtain ⟨t2, ht⟩ := List.getLast?_eq_some_iff.mp hlast
  rw [ht] at hs
  have hform : h = (gl0 ++ t2.map TurnRecord.guess ++ [r.guess]) ++ [s] := by
    rw [hs]
    simp
  have hlast2 : h.getLast? = some s := by
    rw [hform]
    exact List.getLast?_concat _
  rw [hdup] at hlast2
  have hsr : s = r.guess := by
    injection hlast2 with hh
    exact hh.symm
  refine ⟨gl0 ++ t2.map TurnRecord.guess, ?_⟩
  rw [hform, hsr]
  simp

/-- Claim C10: in every solved game whose final selected guess equals the
sole surviving candidate, the returned history ends with that word twice
in a row, because the loop appends the chosen guess and then, after
exiting, appends the remaining candidate as well. -/
theorem claim_C10_duplicate_tail (words : List Word) (first_guess : Option Word)
    (target : Word) (hard : Bool) (mode : Mode) (h : List Word) (r : TurnRecord)
    (hok : (play_wordle words first_guess target hard mode).2 = Except.ok h)
    (hlast : (play_wordle words first_guess target hard mode).1.getLast? =
      some r)
    (hdup : h.getLast? = some r.guess) :
    ∃ pre, h = pre ++ [r.guess, r.guess] := by
  cases first_guess with
  | none =>
    exact playLoop_dup_tail words target hard mode 30 _ _ _ h r hok hlast hdup
  | some fg =>
    exact playLoop_dup_tail words target hard mode 30 _ _ _ h r hok hlast hdup

/-- Claim C10 witness: the game on `["ab", "cd"]` with secret `"ab"` solves
with history `["ab", "ab"]` — the final guess duplicated. -/
theorem claim_C10_witness :
    ∃ pre, ([['a', 'b'], ['a', 'b']] : List Word) =
      pre ++ [['a', 'b'], ['a', 'b']] :=
  claim_C10_duplicate_tail [['a', 'b'], ['c', 'd']] none ['a', 'b'] false
    Mode.NO_POOL [['a', 'b'], ['a', 'b']]
    ⟨[['a', 'b'], ['c', 'd']], [['a', 'b'], ['c', 'd']], [], ['a', 'b']⟩
    (by decide) (by decide) (by decide)

/-- If the full word `s` disagrees with the answer `t` somewhere in the
positions covered by the suffix `suf` of `s`, then `s` itself breaks one of
the filter checks generated by classifying `s` against `t`: a YELLOW label
breaks because `s` carries its own letter at that position, and a BLANK
label breaks because `s` contains its own letter. -/
theorem keepsWord_self_break (s t : Word) :
    ∀ (suf : Word) (pos : Nat),
      (∀ (i : Nat) (hi : i < suf.length),
        suf.get ⟨i, hi⟩ = s.getD (pos + i) ' ') →
      (∀ (i : Nat) (hi : i < suf.length), suf.get ⟨i, hi⟩ ∈ s) →
      (∃ (i : Nat) (_ : i < suf.length),
        t.getD (pos + i) ' ' ≠ suf.getD i ' ') →
      keepsWord s pos ((classifyAux t pos suf).zip suf) = false := by
  intro suf
  induction suf with
  | nil =>
    intro pos _ _ hex
    obtain ⟨i, hi, _⟩ := hex
    exact absurd hi (by simp)
  | cons letter rest ih =>
    intro pos hcons hmem hex
    have hs0 : s.getD pos ' ' = letter := by
      have h0 := hcons 0 (by simp)
      simpa using h0.symm
    by_cases hg : t.getD pos ' ' = letter
    · have hcl : classifyAux t pos (letter :: rest) =
          Classification.GREEN :: classifyAux t (pos + 1) rest := by
        rw [classifyAux, if_pos hg]
      rw [hcl, List.zip_cons_cons]
      show (if s.getD pos ' ' ≠ letter then false
            else keepsWord s (pos + 1) ((classifyAux t (pos + 1) rest).zip rest))
        = false
      rw [if_neg (not_not_intro hs0)]
      apply ih (pos + 1)
      · intro i hi
        have h1 := hcons (i + 1) (by simp; omega)
        have h2 : pos + (i + 1) = pos + 1 + i := by omega
        rw [h2] at h1
        simpa using h1
      · intro i hi
        have h1 := hmem (i + 1) (by simp; omega)
        simpa using h1
      · obtain ⟨i, hi, hne⟩ := hex
        cases i with
        | zero =>
          exact absurd (by simpa using hne) (not_not_intro hg)
        | succ j =>
          have hj : j < rest.length := by
            rw [List.length_cons] at hi
            omega
          refine ⟨j, hj, ?_⟩
          have h2 : pos + (j + 1) = pos + 1 + j := by omega
          rw [h2] at hne
          simpa using hne
    · have hm0 : letter ∈ s := by
        have h0 := hmem 0 (by simp)
        simpa using h0
      by_cases hm : letter ∈ t
      · have hcl : classifyAux t pos (letter :: rest) =
            Classification.YELLOW :: classifyAux t (pos + 1) rest := by
          rw [classifyAux, if_neg hg, if_pos hm]
        rw [hcl, List.zip_cons_cons]
        show (if s.getD pos ' ' = letter ∨ letter ∉ s then false
              else keepsWord s (pos + 1)
                ((classifyAux t (pos + 1) rest).zip rest)) = false
        rw [if_pos (Or.inl hs0)]
      · have hcl : classifyAux t pos (letter :: rest) =
            Classification.BLANK :: classifyAux t (pos + 1) rest := by
          rw [classifyAux, if_neg hg, if_neg hm]
        rw [hcl, List.zip_cons_cons]
        show (if letter ∈ s then false
              else keepsWord s (pos + 1)
                ((classifyAux t (pos + 1) rest).zip rest)) = false
        rw [if_pos hm0]

/-- A seed guess different from the (equal-length) target never survives
the filter built from its own feedback. -/
theorem seed_not_mem_filter (words : List Word) (s t : Word)
    (hlen : s.length = t.length) (hne : s ≠ t) :
    s ∉ filter_words words s (classify_guess s t) := by
  intro hmem
  have hkeep := (List.mem_filter.mp hmem).2
  have hex : ∃ (i : Nat) (_ : i < s.length),
      t.getD (0 + i) ' ' ≠ s.getD i ' ' := by
    by_contra hall
    push_neg at hall
    apply hne
    apply List.ext_get hlen
    intro i h1 h2
    have h3 := hall i h1
    rw [Nat.zero_add] at h3
    rw [List.getD_eq_getElem _ _ h2, List.getD_eq_getElem _ _ h1] at h3
    simp only [List.get_eq_getElem]
    exact h3.symm
  have hf := keepsWord_self_break s t s 0
    (fun i hi => by
      rw [Nat.zero_add, List.getD_eq_getElem _ _ hi]
      simp)
    (fun i hi => List.get_mem s i hi)
    hex
  rw [classify_guess] at hkeep
  rw [hf] at hkeep
  exact Bool.noConfusion hkeep

theorem next_vocab_hard (target : Word) (pa gs gl : List Word) (guess : Word) :
    nextVocab target true pa gs gl guess =
      (nextCandidates target pa guess).filter
        (fun w => decide (w ∉ gl ++ [guess])) := by
  rw [nextVocab, if_pos rfl]
  apply List.filter_congr
  intro x _
  apply decide_eq_decide.mpr
  simp only [List.mem_append, List.mem_singleton, not_or]
  tauto

theorem next_vocab_easy (words : List Word) (target : Word)
    (pa gs gl : List Word)
    (guess : Word) (k : Nat) (hk : k ≤ gl.length)
    (hgs : gs = words.filter (fun w => decide (w ∉ gl.drop k))) :
    nextVocab target false pa gs gl guess =
      words.filter (fun w => decide (w ∉ (gl ++ [guess]).drop k)) := by
  rw [nextVocab, if_neg (by simp), hgs, List.filter_filter,
    List.drop_append_of_le_length hk]
  apply List.filter_congr
  intro x _
  rw [← Bool.decide_and]
  apply decide_eq_decide.mpr
  simp only [List.mem_append, List.mem_singleton, not_or]
  tauto

theorem playLoop_hard_vocab (words : List Word) (target : Word) (mode : Mode) :
    ∀ (fuel : Nat) (pa gs gl : List Word),
      gs = pa.filter (fun w => decide (w ∉ gl)) →
      ∀ r ∈ (playLoop words target true mode fuel pa gs gl).1,
        r.vocab = r.candidates.filter (fun w => decide (w ∉ r.history)) := by
  intro fuel
  induction fuel with
  | zero =>
    intro pa gs gl _ r hr
    simp [playLoop] at hr
  | succ fuel ih =>
    intro pa gs gl hinv r hr
    by_cases hlen : 1 < pa.length
    · cases hsel : selectGuess mode pa gs with
      | none =>
        rw [playLoop, playBody.eq_def, if_pos hlen, hsel] at hr
        simp at hr
      | some guess =>
        by_cases hgl : 20 < gl.length
        · rw [playLoop_succ_raise words target true mode fuel pa gs gl guess
            hlen hsel hgl] at hr
          simp at hr
          subst hr
          exact hinv
        · rw [playLoop_succ_continue words target true mode fuel pa gs gl guess
            hlen hsel hgl] at hr
          simp only [List.mem_cons] at hr
          rcases hr with hr | hr
          · subst hr
            exact hinv
          · exact ih _ _ _ (next_vocab_hard target pa gs gl guess) r hr
    · rw [playLoop, playBody.eq_def, if_neg hlen] at hr
      cases pa with
      | nil => simp at hr
      | cons w rest => simp at hr

theorem playLoop_easy_vocab (words : List Word) (target : Word) (mode : Mode)
    (k : Nat) :
    ∀ (fuel : Nat) (pa gs gl : List Word),
      k ≤ gl.length →
      gs = words.filter (fun w => decide (w ∉ gl.drop k)) →
      ∀ r ∈ (playLoop words target false mode fuel pa gs gl).1,
        r.vocab = words.filter (fun w => decide (w ∉ r.history.drop k)) := by
  intro fuel
  induction fuel with
  | zero =>
    intro pa gs gl _ _ r hr
    simp [playLoop] at hr
  | succ fuel ih =>
    intro pa gs gl hk hinv r hr
    by_cases hlen : 1 < pa.length
    · cases hsel : selectGuess mode pa gs with
      | none =>
        rw [playLoop, playBody.eq_def, if_pos hlen, hsel] at hr
        simp at hr
      | some guess =>
        by_cases hgl : 20 < gl.length
        · rw [playLoop_succ_raise words target false mode fuel pa gs gl guess
            hlen hsel hgl] at hr
          simp at hr
          subst hr
          exact hinv
        · rw [playLoop_succ_continue words target false mode fuel pa gs gl guess
            hlen hsel hgl] at hr
          simp only [List.mem_cons] at hr
          rcases hr with hr | hr
          · subst hr
            exact hinv
          · exact ih _ _ _ (by simp; omega)
              (next_vocab_easy words target pa gs gl guess k hk hinv) r hr
    · rw [playLoop, playBody.eq_def, if_neg hlen] at hr
      cases pa with
      | nil => simp at hr
      | cons w rest => simp at hr

/-- Claim C6 counterexample: in easy mode with seed guess `"ab"` over the
dictionary `["ab", "cd", "ef"]` and secret `"ef"`, the vocabulary handed
to the selector on the first loop turn is the full dictionary — still
containing the already-guessed seed `"ab"` — and not the dictionary minus
the guess history. -/
theorem claim_C6_counterexample :
    ((play_wordle [['a', 'b'], ['c', 'd'], ['e', 'f']] (some ['a', 'b'])
        ['e', 'f'] false Mode.NO_POOL).1.headI).vocab ≠
      ([['a', 'b'], ['c', 'd'], ['e', 'f']] : List Word).filter
        (fun w => decide (w ∉
          ((play_wordle [['a', 'b'], ['c', 'd'], ['e', 'f']] (some ['a', 'b'])
            ['e', 'f'] false Mode.NO_POOL).1.headI).history)) := by
  decide

/-- Claim C6 (amended): at every recorded turn, the vocabulary handed to
the selector is, in hard mode, the current candidate set minus all
already-guessed words (provided any seed guess is an equal-length word
different from the target — a seed equal to the target ends the game
before the loop runs); in easy mode it is the full dictionary minus the
words guessed by the loop itself, with the seed guess never removed. -/
theorem claim_C6_amended_vocabulary (words : List Word)
    (first_guess : Option Word) (target : Word) (mode : Mode) :
    ((first_guess = none ∨ ∃ s, first_guess = some s ∧
        s.length = target.length ∧ s ≠ target) →
      ∀ r ∈ (play_wordle words first_guess target true mode).1,
        r.vocab = r.candidates.filter (fun w => decide (w ∉ r.history)))
    ∧ (∀ r ∈ (play_wordle words first_guess target false mode).1,
        r.vocab = words.filter (fun w =>
          decide (w ∉ r.history.drop first_guess.toList.length))) := by
  constructor
  · intro hseed r hr
    cases first_guess with
    | none =>
      refine playLoop_hard_vocab words target mode 30 words words [] ?_ r hr
      symm
      apply List.filter_eq_self.mpr
      intro a _
      simp
    | some s =>
      rcases hseed with h1 | ⟨s2, hs2, hlen2, hne2⟩
      · exact absurd h1 (by simp)
      · have hss : s2 = s := by
          injection hs2 with hh
          exact hh.symm
        subst hss
        refine playLoop_hard_vocab words target mode 30
          (filter_words words s2 (classify_guess s2 target)) _ [s2] ?_ r hr
        symm
        apply List.filter_eq_self.mpr
        intro a ha
        have hane : a ≠ s2 := by
          intro he
          subst he
          exact seed_not_mem_filter words a target hlen2 hne2 ha
        simp [hane]
  · intro r hr
    cases first_guess with
    | none =>
      refine playLoop_easy_vocab words target mode 0 30 words words []
        (by simp) ?_ r hr
      symm
      apply List.filter_eq_self.mpr
      intro a _
      simp
    | some s =>
      refine playLoop_easy_vocab words target mode 1 30
        (filter_words words s (classify_guess s target)) words [s]
        (by simp) ?_ r hr
      symm
      apply List.filter_eq_self.mpr
      intro a _
      simp

/-- Claim C6 witness: a concrete hard-mode game in which the first turn's
vocabulary is exactly the candidate set minus the (empty) history. -/
theorem claim_C6_witness :
    ((play_wordle [['a', 'b'], ['c', 'd']] none ['a', 'b'] true
        Mode.NO_POOL).1.headI).vocab =
      ((play_wordle [['a', 'b'], ['c', 'd']] none ['a', 'b'] true
        Mode.NO_POOL).1.headI).candidates.filter
        (fun w => decide (w ∉
          ((play_wordle [['a', 'b'], ['c', 'd']] none ['a', 'b'] true
            Mode.NO_POOL).1.headI).history)) :=
  (claim_C6_amended_vocabulary [['a', 'b'], ['c', 'd']] none ['a', 'b']
    Mode.NO_POOL).1 (Or.inl rfl) _ (by decide)
